import Mathlib

/-
Verification of the PageRank core (pagerank.py): the transition model,
the sampling estimator and the iterative solver, shallowly embedded in Lean.

Python dictionaries preserve insertion order and have unique keys, so a
dict is embedded as an association list; a Python set of out-links is
embedded as a duplicate-free list.  Page names are opaque identifiers,
embedded as naturals.  Python floats are embedded as rationals (all the
arithmetic the core performs is field arithmetic).  Code that can raise a
Python exception (KeyError on a missing dict key, IndexError on
random.choice of an empty list, ZeroDivisionError) returns an Option,
with none marking the raised exception.  The pseudo-random source
(random.choice / random.choices) is an explicit oracle parameter: the
oracle receives the population (and, for random.choices, the weight list
the code builds) and yields the chosen element.
-/

namespace PageRank

/-- Page identifiers (Python strings, opaque to the algorithm). -/
abbrev Node := Nat

/-- A corpus: Python dict mapping each page to the list of pages it links to. -/
abbrev Graph := List (Node × List Node)

/-- A rank / probability distribution: Python dict mapping each page to a rational. -/
abbrev Dist := List (Node × ℚ)

/-- The keys of a Python dict, in insertion order. -/
def keys {α : Type} (g : List (Node × α)) : List Node := g.map Prod.fst

/-- Python `d[k]`: the value at the first (unique) entry with key `k`,
`none` when the key is absent (Python raises KeyError). -/
def lookupD {α : Type} : List (Node × α) → Node → Option α
  | [], _ => none
  | kv :: rest, k => if kv.1 = k then some kv.2 else lookupD rest k

/-- Python `output[k] += p` on a dict known to contain `k`: bump the value
stored at key `k`.  (On a dict with unique keys at most one entry changes;
the graph-loader invariant guarantees `k` is present wherever the code
performs this update.) -/
def addProb (out : Dist) (k : Node) (p : ℚ) : Dist :=
  out.map (fun kv => if kv.1 = k then (kv.1, kv.2 + p) else kv)

/-- `transition_model(corpus, page, damping_factor)` from pagerank.py.
`none` is the KeyError raised by `corpus[page]` when `page` is not a key. -/
def transition_model (corpus : Graph) (page : Node) (damping_factor : ℚ) :
    Option Dist :=
  match lookupD corpus page with
  | none => none
  | some links =>
    if links.length = 0 then
      some ((keys corpus).map (fun key => (key, 1 / (corpus.length : ℚ))))
    else
      let base : Dist :=
        (keys corpus).map (fun key => (key, (1 - damping_factor) / (corpus.length : ℚ)))
      let prob := damping_factor / (links.length : ℚ)
      some (links.foldl (fun out pageLink => addProb out pageLink prob) base)

/-- The `for _ in range(1, n)` loop of `sample_pagerank`, with the number of
remaining iterations as first numeric argument and the step counter fed to
the random oracle as second.  Each iteration records a visit of the current
sample, builds the transition distribution and its page/weight lists, and
draws the next sample through the oracle. -/
def sampleLoop (corpus : Graph) (damping_factor : ℚ)
    (randChoices : ℕ → List Node → List ℚ → Node) :
    ℕ → ℕ → Node → Dist → Option Dist
  | 0, _, _, out => some out
  | k + 1, t, nextSample, out =>
    let out1 := addProb out nextSample 1
    match transition_model corpus nextSample damping_factor with
    | none => none
    | some dist =>
      let page := dist.map Prod.fst
      let weight := dist.map Prod.snd
      sampleLoop corpus damping_factor randChoices k (t + 1)
        (randChoices t page weight) out1

/-- `sample_pagerank(corpus, damping_factor, n)` from pagerank.py.
`randChoice` embeds `random.choice` (first sample), `randChoices` embeds
`random.choices` (weighted draws).  `none` marks the IndexError of
`random.choice([])` on an empty corpus and the ZeroDivisionError of the
final `output[key]/n` when `n = 0`.  `n` is a Python int, so it may be
negative: `range(1, n)` then runs zero times, which `(n - 1).toNat`
iterations capture. -/
def sample_pagerank (corpus : Graph) (damping_factor : ℚ) (n : ℤ)
    (randChoice : List Node → Node)
    (randChoices : ℕ → List Node → List ℚ → Node) : Option Dist :=
  if corpus.length = 0 then none
  else
    let firstSample := randChoice (keys corpus)
    let out0 : Dist := (keys corpus).map (fun key => (key, 0))
    match sampleLoop corpus damping_factor randChoices (n - 1).toNat 0
        firstSample out0 with
    | none => none
    | some out =>
      if n = 0 then none
      else some (out.map (fun kv => (kv.1, kv.2 / (n : ℚ))))

/-- One body of the `while run` loop of `iterate_pagerank`: for every key of
`currentRank`, sum the contributions of every page `i` of the corpus
(`currentRank[i]/len(corpus[i])` when the key is among `i`'s links,
`currentRank[i]/N` when `i` is a sink) and damp. -/
def iterStep (corpus : Graph) (damping_factor : ℚ) (currentRank : Dist) : Dist :=
  currentRank.map (fun kv =>
    (kv.1, (1 - damping_factor) / (corpus.length : ℚ) + damping_factor *
      corpus.foldl (fun summation il =>
        if kv.1 ∈ il.2 then
          summation + ((lookupD currentRank il.1).getD 0) / (il.2.length : ℚ)
        else if il.2.length = 0 then
          summation + ((lookupD currentRank il.1).getD 0) / (corpus.length : ℚ)
        else summation) 0))

/-- The `diff` list of `iterate_pagerank`: per-key absolute change of rank. -/
def diffList (currentRank newRank : Dist) : List ℚ :=
  currentRank.map (fun kv => |kv.2 - ((lookupD newRank kv.1).getD 0)|)

/-- The `while run` loop of `iterate_pagerank`, with fuel: `none` when the
fuel runs out before the loop exits.  The source tests every per-key change
against the literal `0.0015` (line 137 of pagerank.py) and, on success,
returns the freshly computed ranks. -/
def iterLoop (corpus : Graph) (damping_factor : ℚ) : ℕ → Dist → Option Dist
  | 0, _ => none
  | fuel + 1, currentRank =>
    let newRank := iterStep corpus damping_factor currentRank
    if (diffList currentRank newRank).all (fun i => decide (i < 3/2000)) then
      some newRank
    else iterLoop corpus damping_factor fuel newRank

/-- The initial state of `iterate_pagerank`: every page at rank `1/N`. -/
def initialRank (corpus : Graph) : Dist :=
  (keys corpus).map (fun key => (key, 1 / (corpus.length : ℚ)))

/-- `iterate_pagerank(corpus, damping_factor)` from pagerank.py, with fuel
for the unbounded `while` loop. -/
def iterate_pagerank (corpus : Graph) (damping_factor : ℚ) (fuel : ℕ) :
    Option Dist :=
  iterLoop corpus damping_factor fuel (initialRank corpus)

/-- The solver loop exactly as the specification words it: identical to
`iterLoop` except that the convergence test compares each per-key change
against the spec's threshold `0.001` instead of the source's `0.0015`. -/
def iterLoopSpec (corpus : Graph) (damping_factor : ℚ) : ℕ → Dist → Option Dist
  | 0, _ => none
  | fuel + 1, currentRank =>
    let newRank := iterStep corpus damping_factor currentRank
    if (diffList currentRank newRank).all (fun i => decide (i < 1/1000)) then
      some newRank
    else iterLoopSpec corpus damping_factor fuel newRank

/-- The iterative solver as the specification words it (threshold `0.001`). -/
def iterate_pagerank_spec (corpus : Graph) (damping_factor : ℚ) (fuel : ℕ) :
    Option Dist :=
  iterLoopSpec corpus damping_factor fuel (initialRank corpus)

/-- The spec's per-iteration summand for the solver:
`contribution(i, p) = currentRank[i]/|out-links(i)|` when `p` is among `i`'s
out-links, `currentRank[i]/N` when `i` is a sink, and `0` otherwise. -/
def contribution (currentRank : Dist) (N : ℕ) (p : Node)
    (il : Node × List Node) : ℚ :=
  if p ∈ il.2 then ((lookupD currentRank il.1).getD 0) / (il.2.length : ℚ)
  else if il.2.length = 0 then ((lookupD currentRank il.1).getD 0) / (N : ℚ)
  else 0

/-- Sum of the values of a distribution. -/
def distSum (d : Dist) : ℚ := (d.map Prod.snd).sum

/-- Single sink page, the boundary graph of the spec. -/
def g1 : Graph := [(0, [])]

/-- Two pages: page 0 links to page 1, page 1 is a sink. -/
def g2 : Graph := [(0, [1]), (1, [])]

/-- A concrete `random.choice` oracle: always the first page. -/
def rc0 : List Node → Node := fun l => l.headD 0

/-- A concrete `random.choices` oracle: always the first page of the population. -/
def rcs0 : ℕ → List Node → List ℚ → Node := fun _ p _ => p.headD 0

/-- C1: the sampler records one visit per loop iteration, `n - 1` visits in
all (the last drawn page is never recorded), and divides by `n`; on the
single-page corpus with `n = 2` (where every random draw is forced) the
returned values sum to `1/2`, not to `1` as the claim and the function's
own docstring state. -/
theorem sample_pagerank_sum_not_one :
    (sample_pagerank g1 (17/20) 2 rc0 rcs0).map distSum = some (1/2) ∧
    (sample_pagerank g1 (17/20) 2 rc0 rcs0).map distSum ≠ some 1 := by
  norm_num [sample_pagerank, sampleLoop, transition_model, addProb, lookupD,
    keys, distSum, g1, rc0, rcs0]

/-- C6: with `n = 1` the sampling loop `range(1, 1)` runs zero times, so the
start page (page 0, the one the oracle `rc0` picks) is never recorded:
`sample_pagerank` returns the all-zero map, not the claimed one-hot
distribution with value `1` at the start page. -/
theorem sample_pagerank_one_sample_all_zero :
    sample_pagerank g2 (17/20) 1 rc0 rcs0 = some [(0, 0), (1, 0)] ∧
    rc0 (keys g2) = 0 := by
  norm_num [sample_pagerank, sampleLoop, transition_model, addProb, lookupD,
    keys, g2, rc0, rcs0]

/-- C7: on the single-page boundary corpus the iterative solver does return
rank `1` for the page, but the sampler returns `(n-1)/n` (here `4/5` for
`n = 5`), not the claimed `1.0`. -/
theorem single_node_boundary_results :
    sample_pagerank g1 (17/20) 5 rc0 rcs0 = some [(0, 4/5)] ∧
    iterate_pagerank g1 (17/20) 1 = some [(0, 1)] := by
  norm_num [sample_pagerank, sampleLoop, transition_model, addProb, lookupD,
    keys, g1, rc0, rcs0, iterate_pagerank, iterLoop, iterStep, diffList,
    initialRank, abs_lt]

/-- C2 counterexample: on the corpus where page 0 links to page 1 and page 1
is a sink, with damping `0.85`, the source's loop (threshold `0.0015`)
stops one iteration earlier than the loop the claim describes (threshold
`0.001`), and the returned distributions differ; so `iterate_pagerank` does
not stop exactly when all changes are below `0.001`. -/
theorem iterate_threshold_mismatch :
    iterate_pagerank g2 (17/20) 10 ≠ iterate_pagerank_spec g2 (17/20) 10 := by
  norm_num [iterate_pagerank, iterate_pagerank_spec, iterLoop, iterLoopSpec,
    iterStep, diffList, initialRank, lookupD, keys, g2, abs_lt]

/-- C8 counterexample: two precondition violations that do not fail.  A
non-positive sample count (`n = -1`) makes `sample_pagerank` silently
return the all-zero map (the loop runs zero times and `0/n = 0`), and
`iterate_pagerank` on the empty corpus silently returns the empty map (the
`1/N` division sits inside a loop over zero keys and is never executed);
neither signals an invalid-argument condition. -/
theorem precondition_violations_ignored :
    sample_pagerank g2 (17/20) (-1) rc0 rcs0 = some [(0, 0), (1, 0)] ∧
    iterate_pagerank ([] : Graph) (17/20) 1 = some [] := by
  norm_num [sample_pagerank, sampleLoop, transition_model, addProb, lookupD,
    keys, g2, rc0, rcs0, iterate_pagerank, iterLoop, iterStep, diffList,
    initialRank]

/-- Looking a key up in a dict built by mapping a value function over a key
list finds the computed value exactly when the key occurs in the list. -/
theorem lookupD_map_pair (f : Node → ℚ) (k : Node) (l : List Node) :
    lookupD (l.map (fun j => (j, f j))) k = if k ∈ l then some (f k) else none := by
  induction l with
  | nil => simp [lookupD]
  | cons a t ih =>
    by_cases h : a = k
    · subst h
      simp [lookupD]
    · simp [lookupD, h, ih, Ne.symm h]

/-- `addProb` bumps exactly the value stored at the touched key. -/
theorem lookupD_addProb (out : Dist) (j : Node) (p : ℚ) (k : Node) :
    lookupD (addProb out j p) k
      = (lookupD out k).map (fun v => if k = j then v + p else v) := by
  induction out with
  | nil => simp [addProb, lookupD]
  | cons kv t ih =>
    by_cases hj : kv.1 = j
    · by_cases hk : kv.1 = k
      · have hkj : k = j := hk ▸ hj
        simp [addProb, lookupD, hj, hk, hkj]
      · have hjk : ¬ j = k := fun h => hk (hj.trans h)
        simpa [addProb, lookupD, hj, hjk] using ih
    · by_cases hk : kv.1 = k
      · have hkj : ¬ k = j := fun h => hj (hk.trans h)
        simp [addProb, lookupD, hj, hk, hkj]
      · simpa [addProb, lookupD, hj, hk] using ih

/-- Folding `addProb` over a list of links bumps each key once per
occurrence in the list. -/
theorem lookupD_foldl_addProb (p : ℚ) (k : Node) (links : List Node) :
    ∀ base : Dist,
      lookupD (links.foldl (fun o pl => addProb o pl p) base) k
        = (lookupD base k).map (fun v => v + (links.count k : ℚ) * p) := by
  induction links with
  | nil =>
    intro base
    cases h : lookupD base k <;> simp [h]
  | cons a t ih =>
    intro base
    rw [List.foldl_cons, ih (addProb base a p), lookupD_addProb]
    cases h : lookupD base k with
    | none => simp
    | some v =>
      by_cases hk : k = a
      · subst hk
        simp only [Option.map_some', List.count_cons_self]
        push_cast
        ring_nf
      · simp [List.count_cons, hk]

/-- Mapping a first-component-preserving function over a dict keeps its keys. -/
theorem keys_map_pres (f : Node × ℚ → Node × ℚ) (h : ∀ kv, (f kv).1 = kv.1)
    (l : Dist) : keys (l.map f) = keys l := by
  induction l with
  | nil => rfl
  | cons kv t ih =>
    simp only [List.map_cons, keys] at *
    rw [h kv, ih]

/-- Building a dict by pairing each key of a list with a value keeps the list
as key set. -/
theorem keys_map_pair (f : Node → ℚ) (l : List Node) :
    keys (l.map (fun j => (j, f j))) = l := by
  induction l with
  | nil => rfl
  | cons a t ih =>
    simp only [List.map_cons, keys] at *
    rw [ih]

/-- `addProb` keeps the key set of a dict. -/
theorem keys_addProb (out : Dist) (j : Node) (p : ℚ) :
    keys (addProb out j p) = keys out :=
  keys_map_pres _ (fun kv => by by_cases h : kv.1 = j <;> simp [h]) out

/-- Folding `addProb` keeps the key set of a dict. -/
theorem keys_foldl_addProb (p : ℚ) (links : List Node) :
    ∀ base : Dist,
      keys (links.foldl (fun o pl => addProb o pl p) base) = keys base := by
  induction links with
  | nil => intro base; rfl
  | cons a t ih =>
    intro base
    rw [List.foldl_cons, ih (addProb base a p), keys_addProb]

/-- C4: on a sink page (empty out-link set) the transition model is the
uniform distribution: every page of the corpus gets exactly `1/N`,
independently of the damping factor (which does not occur in the value). -/
theorem transition_model_sink (g : Graph) (p : Node) (d : ℚ) (k : Node)
    (hL : lookupD g p = some []) (hk : k ∈ keys g) :
    ∃ out, transition_model g p d = some out ∧
      lookupD out k = some (1 / (g.length : ℚ)) := by
  refine ⟨(keys g).map (fun key => (key, 1 / (g.length : ℚ))), ?_, ?_⟩
  · simp [transition_model, hL]
  · rw [lookupD_map_pair, if_pos hk]

/-- C3: on a page with non-empty out-link set `L`, the transition model
gives every page of the corpus the base probability `(1-d)/N` and
additionally `d/|L|` to each page in `L`. -/
theorem transition_model_nonsink (g : Graph) (p : Node) (d : ℚ) (L : List Node)
    (k : Node) (hL : lookupD g p = some L) (hne : L ≠ []) (hnd : L.Nodup)
    (hk : k ∈ keys g) :
    ∃ out, transition_model g p d = some out ∧
      lookupD out k =
        some (if k ∈ L then (1 - d) / (g.length : ℚ) + d / (L.length : ℚ)
              else (1 - d) / (g.length : ℚ)) := by
  have hlen : ¬ L.length = 0 := by simpa [List.length_eq_zero] using hne
  refine ⟨L.foldl (fun o pl => addProb o pl (d / (L.length : ℚ)))
      ((keys g).map (fun key => (key, (1 - d) / (g.length : ℚ)))), ?_, ?_⟩
  · simp [transition_model, hL, hlen]
  · rw [lookupD_foldl_addProb, lookupD_map_pair, if_pos hk, Option.map_some']
    by_cases hmem : k ∈ L
    · rw [List.count_eq_one_of_mem hnd hmem, if_pos hmem]
      norm_num
    · rw [List.count_eq_zero_of_not_mem hmem, if_neg hmem]
      norm_num

/-- Concrete instance of `transition_model_nonsink`: page 0 of `g2` links
to page 1, and page 1 receives `(1-d)/2 + d/1`. -/
theorem transition_model_nonsink_w :
    ∃ out, transition_model g2 0 (17/20) = some out ∧
      lookupD out 1 =
        some (if 1 ∈ [1] then (1 - 17/20) / (g2.length : ℚ) + (17/20) / (([1] : List Node).length : ℚ)
              else (1 - 17/20) / (g2.length : ℚ)) :=
  transition_model_nonsink g2 0 (17/20) [1] 1 (by decide) (by decide) (by decide)
    (by decide)

/-- Concrete instance of `transition_model_sink`: page 0 of `g1` is a sink
and receives the uniform probability `1/1`. -/
theorem transition_model_sink_w :
    ∃ out, transition_model g1 0 (17/20) = some out ∧
      lookupD out 0 = some (1 / (g1.length : ℚ)) :=
  transition_model_sink g1 0 (17/20) 0 (by decide) (by decide)

/-- Whatever the solver loop returns is the `newRank` of a pass whose
per-key changes all lie strictly below the source's threshold `0.0015`. -/
theorem iterLoop_result_below_threshold (g : Graph) (d : ℚ) :
    ∀ (fuel : ℕ) (cur out : Dist), iterLoop g d fuel cur = some out →
      ∃ prev, out = iterStep g d prev ∧ ∀ x ∈ diffList prev out, x < 3/2000 := by
  intro fuel
  induction fuel with
  | zero =>
    intro cur out h
    simp [iterLoop] at h
  | succ m ih =>
    intro cur out h
    simp only [iterLoop] at h
    by_cases hc : (diffList cur (iterStep g d cur)).all (fun i => decide (i < 3/2000)) = true
    · rw [if_pos hc] at h
      obtain rfl := Option.some_inj.mp h
      refine ⟨cur, rfl, fun x hx => ?_⟩
      exact of_decide_eq_true (List.all_eq_true.mp hc x hx)
    · rw [if_neg hc] at h
      exact ih _ out h

/-- C2 (amended): when `iterate_pagerank` stops and returns a distribution,
that distribution is the `newRank` of an iteration pass in which the
absolute difference between every key's old rank and new rank is strictly
below the source's convergence threshold `0.0015` (not the spec's `0.001`)
for all keys simultaneously; in every other pass the loop continues with
`current = new`. -/
theorem iterate_pagerank_stops_below_threshold (g : Graph) (d : ℚ) (fuel : ℕ)
    (out : Dist) (h : iterate_pagerank g d fuel = some out) :
    ∃ prev, out = iterStep g d prev ∧ ∀ x ∈ diffList prev out, x < 3/2000 :=
  iterLoop_result_below_threshold g d fuel (initialRank g) out h

/-- Concrete instance of `iterate_pagerank_stops_below_threshold` on the
single-page corpus. -/
theorem iterate_pagerank_stops_below_threshold_w :
    ∃ prev, [(0, (1 : ℚ))] = iterStep g1 (17/20) prev ∧
      ∀ x ∈ diffList prev [(0, (1 : ℚ))], x < 3/2000 :=
  iterate_pagerank_stops_below_threshold g1 (17/20) 1 [(0, 1)]
    (by norm_num [iterate_pagerank, iterLoop, iterStep, diffList, initialRank,
      lookupD, keys, g1, abs_lt])

/-- Looking up a key in a dict built by mapping a key-determined value over
another dict finds the value computed from the key. -/
theorem lookupD_map_key (l : Dist) (f : Node → ℚ) (k : Node) :
    lookupD (l.map (fun kv => (kv.1, f kv.1))) k
      = (lookupD l k).map (fun _ => f k) := by
  induction l with
  | nil => simp [lookupD]
  | cons kv t ih =>
    by_cases h : kv.1 = k
    · simp [lookupD, h]
    · simp [lookupD, h, ih]

/-- A fold that only accumulates additions equals the starting value plus
the sum of the mapped list. -/
theorem foldl_add_eq_sum (f : Node × List Node → ℚ) (l : Graph) :
    ∀ a : ℚ, l.foldl (fun s x => s + f x) a = a + (l.map f).sum := by
  induction l with
  | nil => intro a; simp
  | cons x t ih =>
    intro a
    rw [List.foldl_cons, ih (a + f x), List.map_cons, List.sum_cons]
    ring

/-- The solver's per-key fold over the corpus equals the sum of the spec's
`contribution` terms. -/
theorem iterStep_summation_eq (g : Graph) (cur : Dist) (p : Node) :
    g.foldl (fun summation il =>
        if p ∈ il.2 then
          summation + ((lookupD cur il.1).getD 0) / (il.2.length : ℚ)
        else if il.2.length = 0 then
          summation + ((lookupD cur il.1).getD 0) / (g.length : ℚ)
        else summation) 0
      = (g.map (contribution cur g.length p)).sum := by
  have hfun : (fun (summation : ℚ) (il : Node × List Node) =>
      if p ∈ il.2 then
        summation + ((lookupD cur il.1).getD 0) / (il.2.length : ℚ)
      else if il.2.length = 0 then
        summation + ((lookupD cur il.1).getD 0) / (g.length : ℚ)
      else summation)
      = fun summation il => summation + contribution cur g.length p il := by
    funext s il
    simp only [contribution]
    split_ifs <;> ring
  rw [hfun, foldl_add_eq_sum, zero_add]

/-- C5: the solver starts every key at `1/N`, and one iteration pass stores
at each tracked key `p` the damped value
`(1-d)/N + d * Σ_i contribution(i, p)` with the spec's `contribution`. -/
theorem iterate_pagerank_update_formula (g : Graph) (d : ℚ) (cur : Dist)
    (p : Node) (fuel : ℕ) (hp : (lookupD cur p).isSome) :
    iterate_pagerank g d fuel
        = iterLoop g d fuel ((keys g).map (fun key => (key, 1 / (g.length : ℚ)))) ∧
    lookupD (iterStep g d cur) p
        = some ((1 - d) / (g.length : ℚ)
            + d * (g.map (contribution cur g.length p)).sum) := by
  refine ⟨rfl, ?_⟩
  obtain ⟨v, hv⟩ := Option.isSome_iff_exists.mp hp
  rw [iterStep,
    lookupD_map_key cur (fun key => (1 - d) / (g.length : ℚ) + d *
      g.foldl (fun summation il =>
        if key ∈ il.2 then
          summation + ((lookupD cur il.1).getD 0) / (il.2.length : ℚ)
        else if il.2.length = 0 then
          summation + ((lookupD cur il.1).getD 0) / (g.length : ℚ)
        else summation) 0) p,
    hv, Option.map_some', iterStep_summation_eq]

/-- Concrete instance of `iterate_pagerank_update_formula` on the two-page
corpus, at key 0 of the uniform starting state. -/
theorem iterate_pagerank_update_formula_w :
    iterate_pagerank g2 (17/20) 3
        = iterLoop g2 (17/20) 3 ((keys g2).map (fun key => (key, 1 / (g2.length : ℚ)))) ∧
    lookupD (iterStep g2 (17/20) (initialRank g2)) 0
        = some ((1 - 17/20) / (g2.length : ℚ)
            + (17/20) * (g2.map (contribution (initialRank g2) g2.length 0)).sum) :=
  iterate_pagerank_update_formula g2 (17/20) (initialRank g2) 0 3
    (by norm_num [initialRank, lookupD, keys, g2])

/-- C8 (amended): the actual failure behavior at each precondition
violation.  A missing page makes `transition_model` raise (KeyError); an
empty corpus makes `sample_pagerank` raise (IndexError of
`random.choice([])`); a zero sample count makes `sample_pagerank` raise
(ZeroDivisionError of `output[key]/n`); but a negative sample count makes
`sample_pagerank` silently return the all-zero map, and an empty corpus
makes `iterate_pagerank` silently return the empty map — the last two
violations are not signalled. -/
theorem precondition_failure_modes (g : Graph) (p : Node) (d : ℚ) (n : ℤ)
    (rc : List Node → Node) (rcs : ℕ → List Node → List ℚ → Node) (fuel : ℕ)
    (hp : lookupD g p = none) (hg : g ≠ []) (hn : n < 0) :
    transition_model g p d = none ∧
    sample_pagerank [] d n rc rcs = none ∧
    sample_pagerank g d 0 rc rcs = none ∧
    sample_pagerank g d n rc rcs = some ((keys g).map (fun key => (key, 0))) ∧
    iterate_pagerank [] d (fuel + 1) = some [] := by
  have hlen : ¬ g.length = 0 := by simpa [List.length_eq_zero] using hg
  refine ⟨?_, ?_, ?_, ?_, ?_⟩
  · simp [transition_model, hp]
  · simp [sample_pagerank]
  · norm_num [sample_pagerank, sampleLoop, hlen]
  · have h1 : (n - 1).toNat = 0 := Int.toNat_of_nonpos (by linarith)
    have hn0 : ¬ n = 0 := by omega
    simp [sample_pagerank, sampleLoop, hlen, h1, hn0, List.map_map,
      Function.comp]
  · simp [iterate_pagerank, iterLoop, initialRank, iterStep, diffList, keys]

/-- Concrete instance of `precondition_failure_modes` at the two-page
corpus, the missing page 5 and the sample count `-1`. -/
theorem precondition_failure_modes_w :
    transition_model g2 5 (17/20) = none ∧
    sample_pagerank [] (17/20) (-1) rc0 rcs0 = none ∧
    sample_pagerank g2 (17/20) 0 rc0 rcs0 = none ∧
    sample_pagerank g2 (17/20) (-1) rc0 rcs0
        = some ((keys g2).map (fun key => (key, 0))) ∧
    iterate_pagerank [] (17/20) (0 + 1) = some [] :=
  precondition_failure_modes g2 5 (17/20) (-1) rc0 rcs0 0 (by decide)
    (by decide) (by decide)

/-- C9: the iterative solver is deterministic — it consumes no random
source, so two invocations at equal corpora and equal damping factors
return equal distributions. -/
theorem iterate_pagerank_deterministic (g g' : Graph) (d d' : ℚ) (fuel : ℕ)
    (hg : g = g') (hd : d = d') :
    iterate_pagerank g d fuel = iterate_pagerank g' d' fuel := by
  rw [hg, hd]

/-- Concrete instance of `iterate_pagerank_deterministic`. -/
theorem iterate_pagerank_deterministic_w :
    iterate_pagerank g1 (17/20) 3 = iterate_pagerank g1 (17/20) 3 :=
  iterate_pagerank_deterministic g1 g1 (17/20) (17/20) 3 rfl rfl

/-- A value found in a dict with non-negative values is non-negative. -/
theorem lookupD_nonneg (cur : Dist) (h : ∀ kv ∈ cur, 0 ≤ kv.2) (k : Node) :
    0 ≤ ((lookupD cur k).getD 0) := by
  induction cur with
  | nil => simp [lookupD]
  | cons kv t ih =>
    by_cases hk : kv.1 = k
    · simpa [lookupD, hk] using h kv (by simp)
    · simpa [lookupD, hk] using ih (fun kv hm => h kv (List.mem_cons_of_mem _ hm))

/-- Pairing keys with a non-negative constant gives non-negative values. -/
theorem map_pair_nonneg (l : List Node) (c : ℚ) (hc : 0 ≤ c) :
    ∀ kv ∈ l.map (fun j => (j, c)), 0 ≤ kv.2 := by
  intro kv hkv
  simp only [List.mem_map] at hkv
  obtain ⟨j, hj, rfl⟩ := hkv
  exact hc

/-- `addProb` with a non-negative increment keeps values non-negative. -/
theorem addProb_nonneg (out : Dist) (j : Node) (p : ℚ) (hp : 0 ≤ p)
    (h : ∀ kv ∈ out, 0 ≤ kv.2) : ∀ kv ∈ addProb out j p, 0 ≤ kv.2 := by
  intro kv hkv
  simp only [addProb, List.mem_map] at hkv
  obtain ⟨kv0, hm, rfl⟩ := hkv
  by_cases hj : kv0.1 = j
  · simpa [hj] using add_nonneg (h kv0 hm) hp
  · simpa [hj] using h kv0 hm

/-- Folding non-negative `addProb` increments keeps values non-negative. -/
theorem foldl_addProb_nonneg (p : ℚ) (hp : 0 ≤ p) (links : List Node) :
    ∀ base : Dist, (∀ kv ∈ base, 0 ≤ kv.2) →
      ∀ kv ∈ links.foldl (fun o pl => addProb o pl p) base, 0 ≤ kv.2 := by
  induction links with
  | nil => intro base hb; simpa using hb
  | cons a t ih =>
    intro base hb
    rw [List.foldl_cons]
    exact ih (addProb base a p) (addProb_nonneg base a p hp hb)

/-- The transition model keeps the corpus's key set and, for a damping
factor in `[0, 1]`, returns only non-negative probabilities. -/
theorem transition_model_keys_nonneg (g : Graph) (p : Node) (d : ℚ) (t : Dist)
    (hd0 : 0 ≤ d) (hd1 : d ≤ 1) (ht : transition_model g p d = some t) :
    keys t = keys g ∧ ∀ kv ∈ t, 0 ≤ kv.2 := by
  cases hL : lookupD g p with
  | none => simp [transition_model, hL] at ht
  | some links =>
    simp only [transition_model, hL] at ht
    by_cases hlen : links.length = 0
    · rw [if_pos hlen] at ht
      obtain rfl := Option.some_inj.mp ht
      refine ⟨keys_map_pair _ (keys g), ?_⟩
      exact map_pair_nonneg (keys g) _ (by positivity)
    · rw [if_neg hlen] at ht
      obtain rfl := Option.some_inj.mp ht
      constructor
      · rw [keys_foldl_addProb, keys_map_pair]
      · refine foldl_addProb_nonneg _ (div_nonneg hd0 (Nat.cast_nonneg _)) links _ ?_
        exact map_pair_nonneg (keys g) _
          (div_nonneg (by linarith) (Nat.cast_nonneg _))

/-- The sampling loop keeps the corpus's key set and non-negative counts. -/
theorem sampleLoop_keys_nonneg (g : Graph) (d : ℚ)
    (rcs : ℕ → List Node → List ℚ → Node) :
    ∀ (k t : ℕ) (ns : Node) (out res : Dist),
      keys out = keys g → (∀ kv ∈ out, 0 ≤ kv.2) →
      sampleLoop g d rcs k t ns out = some res →
      keys res = keys g ∧ ∀ kv ∈ res, 0 ≤ kv.2 := by
  intro k
  induction k with
  | zero =>
    intro t ns out res hk hnn h
    simp only [sampleLoop] at h
    obtain rfl := Option.some_inj.mp h
    exact ⟨hk, hnn⟩
  | succ m ih =>
    intro t ns out res hk hnn h
    simp only [sampleLoop] at h
    cases htm : transition_model g ns d with
    | none => rw [htm] at h; cases h
    | some dist =>
      rw [htm] at h
      refine ih (t + 1) _ (addProb out ns 1) res ?_ ?_ h
      · rw [keys_addProb]; exact hk
      · exact addProb_nonneg out ns 1 (by norm_num) hnn

/-- The sampler keeps the corpus's key set and, for a sample count of at
least one, returns only non-negative rank estimates. -/
theorem sample_pagerank_keys_nonneg (g : Graph) (d : ℚ) (n : ℤ)
    (rc : List Node → Node) (rcs : ℕ → List Node → List ℚ → Node) (s : Dist)
    (hn : 1 ≤ n) (hs : sample_pagerank g d n rc rcs = some s) :
    keys s = keys g ∧ ∀ kv ∈ s, 0 ≤ kv.2 := by
  have hnq : (0 : ℚ) ≤ (n : ℚ) := by exact_mod_cast (by linarith : (0 : ℤ) ≤ n)
  simp only [sample_pagerank] at hs
  by_cases hg : g.length = 0
  · rw [if_pos hg] at hs; cases hs
  · rw [if_neg hg] at hs
    cases hloop : sampleLoop g d rcs (n - 1).toNat 0 (rc (keys g))
        ((keys g).map (fun key => (key, 0))) with
    | none => rw [hloop] at hs; simp at hs
    | some out =>
      simp only [hloop] at hs
      have hn0 : ¬ n = 0 := by omega
      rw [if_neg hn0] at hs
      obtain rfl := Option.some_inj.mp hs
      have base := sampleLoop_keys_nonneg g d rcs (n - 1).toNat 0 (rc (keys g))
        ((keys g).map (fun key => (key, 0))) out
        (keys_map_pair _ (keys g)) (map_pair_nonneg (keys g) 0 le_rfl) hloop
      constructor
      · have hpres : keys (out.map (fun kv => (kv.1, kv.2 / (n : ℚ)))) = keys out := by
          apply keys_map_pres
          intro kv
          rfl
        rw [hpres]
        exact base.1
      · intro kv hkv
        simp only [List.mem_map] at hkv
        obtain ⟨kv0, hm, rfl⟩ := hkv
        exact div_nonneg (base.2 kv0 hm) hnq

/-- One solver pass keeps the key set of the rank dict. -/
theorem iterStep_keys (g : Graph) (d : ℚ) (cur : Dist) :
    keys (iterStep g d cur) = keys cur := by
  simp only [iterStep]
  apply keys_map_pres
  intro kv
  rfl

/-- The spec's `contribution` term is non-negative on non-negative ranks. -/
theorem contribution_nonneg (cur : Dist) (N : ℕ) (p : Node)
    (il : Node × List Node) (h : ∀ kv ∈ cur, 0 ≤ kv.2) :
    0 ≤ contribution cur N p il := by
  simp only [contribution]
  split_ifs
  · exact div_nonneg (lookupD_nonneg cur h il.1) (Nat.cast_nonneg _)
  · exact div_nonneg (lookupD_nonneg cur h il.1) (Nat.cast_nonneg _)
  · exact le_rfl

/-- One solver pass keeps values non-negative for damping in `[0, 1]`. -/
theorem iterStep_nonneg (g : Graph) (d : ℚ) (cur : Dist) (hd0 : 0 ≤ d)
    (hd1 : d ≤ 1) (h : ∀ kv ∈ cur, 0 ≤ kv.2) :
    ∀ kv ∈ iterStep g d cur, 0 ≤ kv.2 := by
  intro kv hkv
  simp only [iterStep, List.mem_map] at hkv
  obtain ⟨kv0, hm, rfl⟩ := hkv
  show 0 ≤ (1 - d) / (g.length : ℚ) + d * _
  rw [iterStep_summation_eq g cur kv0.1]
  refine add_nonneg (div_nonneg (by linarith) (Nat.cast_nonneg _))
    (mul_nonneg hd0 (List.sum_nonneg ?_))
  intro x hx
  simp only [List.mem_map] at hx
  obtain ⟨il, hil, rfl⟩ := hx
  exact contribution_nonneg cur g.length kv0.1 il h

/-- The solver loop keeps the corpus's key set and non-negative values. -/
theorem iterLoop_keys_nonneg (g : Graph) (d : ℚ) (hd0 : 0 ≤ d) (hd1 : d ≤ 1) :
    ∀ (fuel : ℕ) (cur res : Dist),
      keys cur = keys g → (∀ kv ∈ cur, 0 ≤ kv.2) →
      iterLoop g d fuel cur = some res →
      keys res = keys g ∧ ∀ kv ∈ res, 0 ≤ kv.2 := by
  intro fuel
  induction fuel with
  | zero => intro cur res hk hnn h; cases h
  | succ m ih =>
    intro cur res hk hnn h
    simp only [iterLoop] at h
    by_cases hc : (diffList cur (iterStep g d cur)).all
        (fun i => decide (i < 3/2000)) = true
    · rw [if_pos hc] at h
      obtain rfl := Option.some_inj.mp h
      exact ⟨(iterStep_keys g d cur).trans hk, iterStep_nonneg g d cur hd0 hd1 hnn⟩
    · rw [if_neg hc] at h
      exact ih _ res ((iterStep_keys g d cur).trans hk)
        (iterStep_nonneg g d cur hd0 hd1 hnn) h

/-- C10: whenever `transition_model`, `sample_pagerank` and
`iterate_pagerank` return a dict (damping in `[0, 1]`, sample count at
least one), each returned dict has exactly the corpus's key set (in
corpus order) and only non-negative values. -/
theorem pagerank_outputs_keys_nonneg (g : Graph) (p : Node) (d : ℚ) (n : ℤ)
    (rc : List Node → Node) (rcs : ℕ → List Node → List ℚ → Node) (fuel : ℕ)
    (t s r : Dist) (hd0 : 0 ≤ d) (hd1 : d ≤ 1) (hn : 1 ≤ n)
    (ht : transition_model g p d = some t)
    (hs : sample_pagerank g d n rc rcs = some s)
    (hr : iterate_pagerank g d fuel = some r) :
    (keys t = keys g ∧ ∀ kv ∈ t, 0 ≤ kv.2) ∧
    (keys s = keys g ∧ ∀ kv ∈ s, 0 ≤ kv.2) ∧
    (keys r = keys g ∧ ∀ kv ∈ r, 0 ≤ kv.2) := by
  refine ⟨transition_model_keys_nonneg g p d t hd0 hd1 ht,
    sample_pagerank_keys_nonneg g d n rc rcs s hn hs, ?_⟩
  exact iterLoop_keys_nonneg g d hd0 hd1 fuel (initialRank g) r
    (keys_map_pair _ (keys g)) (map_pair_nonneg (keys g) _ (by positivity)) hr

/-- Concrete instance of `pagerank_outputs_keys_nonneg` on the single-page
corpus. -/
theorem pagerank_outputs_keys_nonneg_w :
    (keys [(0, (1 : ℚ))] = keys g1 ∧ ∀ kv ∈ [(0, (1 : ℚ))], 0 ≤ kv.2) ∧
    (keys [(0, (1 : ℚ)/2)] = keys g1 ∧ ∀ kv ∈ [(0, (1 : ℚ)/2)], 0 ≤ kv.2) ∧
    (keys [(0, (1 : ℚ))] = keys g1 ∧ ∀ kv ∈ [(0, (1 : ℚ))], 0 ≤ kv.2) :=
  pagerank_outputs_keys_nonneg g1 0 (17/20) 2 rc0 rcs0 1 [(0, 1)] [(0, 1/2)]
    [(0, 1)] (by norm_num) (by norm_num) (by norm_num)
    (by norm_num [transition_model, lookupD, keys, g1])
    (by norm_num [sample_pagerank, sampleLoop, transition_model, addProb,
      lookupD, keys, g1, rc0, rcs0])
    (by norm_num [iterate_pagerank, iterLoop, iterStep, diffList, initialRank,
      lookupD, keys, g1, abs_lt])

end PageRank
